import Mathlib

/-!
Shallow embedding of the Goodwine/go-xml streaming XML tokenizer
(src/decoder.go, src/xml.go, src/unnamed/part_002) in Lean 4.

Runes are modelled as `Char`, Go strings and byte slices as `List Char` /
`String`, `io.RuneReader` as a `List Char` held in the decoder state, and Go
nil pointers as `Option`.  The decoder's shared `bytes.Buffer` is modelled
explicitly (backing store plus logical length, writes overwriting in place)
because byte slices returned by `Bytes()` alias that storage; this is what
makes `Copy` semantics observable.  Errors are an inductive mirroring the
error identities the code distinguishes with `errors.Is`.
-/

namespace GoXml

/-- Models decoder.go isASCIILetter. -/
def isASCIILetter (r : Char) : Bool :=
  ('a' ≤ r && r ≤ 'z') || ('A' ≤ r && r ≤ 'Z')

/-- Models decoder.go isIdentifierChar. -/
def isIdentifierChar (r : Char) : Bool :=
  isASCIILetter r || r = '-' || r = '_'

/-- Models unicode.IsSpace for the Latin-1 range (the only whitespace the
repository's grammar and tests exercise): space, tab, newline, vertical tab,
form feed, carriage return, NEL and NBSP. -/
def isSpaceRune (r : Char) : Bool :=
  r = ' ' || r = '\t' || r = '\n' || r = (Char.ofNat 11) || r = (Char.ofNat 12) ||
  r = (Char.ofNat 13) || r = (Char.ofNat 0x85) || r = (Char.ofNat 0xA0)

/-- Models xml.go Name: an interned identifier with unexported fields
`local` and `space` (field `local` is a Lean keyword, hence `local_`). -/
structure Name where
  local_ : String
  space : String
deriving DecidableEq, Repr

/-- Models xml.go (n *Name).Local(): nil receiver yields "", otherwise the
`local` field. -/
def Name.Local : Option Name → String
  | none => ""
  | some n => n.local_

/-- Models xml.go (n *Name).Space(): nil receiver yields "", otherwise the
code returns the `local` field (the body reads `return string(n.local)`). -/
def Name.Space : Option Name → String
  | none => ""
  | some n => n.local_

/-- Models xml.go Attr: a `*Name` and a value string. -/
structure Attr where
  name : Option Name
  value : String
deriving DecidableEq, Repr

/-- Models the attrBuffer of src/unnamed/part_002: a slice of `*Attr`
(slots are `Option Attr`, `none` standing for a nil pointer) plus a cursor. -/
structure attrBuffer where
  buf : List (Option Attr)
  pos : Nat
deriving DecidableEq, Repr

/-- Models attrBuffer.growBy: append n nil slots. -/
def attrBuffer.growBy (b : attrBuffer) (n : Nat) : attrBuffer :=
  { b with buf := b.buf ++ List.replicate n none }

/-- Models attrBuffer.reset: rewind the cursor. -/
def attrBuffer.reset (b : attrBuffer) : attrBuffer :=
  { b with pos := 0 }

/-- Models attrBuffer.add: grow by 2/3 of the current length when
`pos+1 == len(buf)`, then store at the cursor and advance. -/
def attrBuffer.add (b : attrBuffer) (attr : Attr) : attrBuffer :=
  let b := if b.pos + 1 = b.buf.length then b.growBy (b.buf.length * 2 / 3) else b
  { b with buf := b.buf.set b.pos (some attr), pos := b.pos + 1 }

/-- Models attrBuffer.get: nil when the cursor is zero, otherwise the first
`pos` slots, resetting the cursor. -/
def attrBuffer.get (b : attrBuffer) : Option (List (Option Attr)) × attrBuffer :=
  if b.pos = 0 then (none, b)
  else (some (b.buf.take b.pos), b.reset)

/-- Models the decoder's shared bytes.Buffer in its no-reallocation regime
(`buf.Grow(1000)` in NewDecoder): `store` is the backing array, `len` the
logical length.  `Reset` keeps the backing array, so later writes overwrite
bytes still referenced by previously returned slices. -/
structure Buffer where
  store : List Char
  len : Nat
deriving DecidableEq, Repr

/-- Models bytes.Buffer Reset: logical length zero, storage kept. -/
def Buffer.reset (b : Buffer) : Buffer :=
  { b with len := 0 }

/-- Models bytes.Buffer WriteRune: overwrite position `len` in place
(appending when at the end of the backing array). -/
def Buffer.writeRune (b : Buffer) (c : Char) : Buffer :=
  { store := b.store.take b.len ++ c :: b.store.drop (b.len + 1), len := b.len + 1 }

/-- Models bytes.Buffer String()/Bytes() contents: the first `len` stored chars. -/
def Buffer.string (b : Buffer) : List Char :=
  b.store.take b.len

/-- Models a Go byte slice held by a token: either a view of the decoder's
buffer backing array (a slice header of the given length at offset 0), or
independently owned storage produced by an explicit copy. -/
inductive ByteRef where
  | view (len : Nat)
  | owned (data : List Char)
deriving DecidableEq, Repr

/-- Dereference a ByteRef against the decoder buffer it may alias. -/
def ByteRef.read (r : ByteRef) (b : Buffer) : List Char :=
  match r with
  | .view n => b.store.take n
  | .owned data => data

/-- Models the xml.go Token interface variants.  StartTag's attributes are
the arena view returned by attrBuffer.get. -/
inductive Token where
  | StartTag (name : Option Name) (attr : Option (List (Option Attr)))
  | CloseTag (name : Option Name)
  | CharData (data : ByteRef)
  | Comment (data : ByteRef)
  | ProcInst
  | Directive (data : ByteRef)
deriving DecidableEq, Repr

/-- Models the Copy methods of xml.go.  StartTag.Copy duplicates the pointer
slice (attribute records themselves are never mutated afterwards, so values
suffice); CloseTag.Copy rebuilds the struct around the shared immutable Name;
CharData.Copy allocates fresh storage and copies the bytes out of the buffer;
Comment.Copy and Directive.Copy are the shallow struct copies `c := *t`,
which duplicate only the slice header, so the copied Data still aliases the
decoder's buffer. -/
def Token.Copy (t : Token) (b : Buffer) : Token :=
  match t with
  | .StartTag n a => .StartTag n a
  | .CloseTag n => .CloseTag n
  | .CharData r => .CharData (.owned (r.read b))
  | .Comment r => .Comment r
  | .ProcInst => .ProcInst
  | .Directive r => .Directive r

/-- Error identities distinguished by the decoder.  `eof` is io.EOF returned
bare at a clean token boundary; `wrappedEOF` is the error produced by the
self-close branch of startTag, which wraps the raw io.EOF from next() with
fmt.Errorf (so errors.Is(err, io.EOF) still holds); `unexpectedEOF` is
io.ErrUnexpectedEOF from checkUnexpectedEOF; `outOfFuel` is an artifact of
the fuel-based embedding that is never produced when a loop is run with fuel
exceeding the remaining input length (the decoder always supplies that). -/
inductive DecErr where
  | eof
  | wrappedEOF
  | unexpectedEOF
  | unexpectedChar (r : Char)
  | commentTooEarly
  | procInstTooEarly
  | outOfFuel
deriving DecidableEq, Repr

/-- Models errors.Is(err, io.EOF) on the error identities above. -/
def DecErr.isEOF : DecErr → Bool
  | .eof => true
  | .wrappedEOF => true
  | _ => false

/-- Errors as returned by the public Token method: either the unannotated
error (the io.EOF-satisfying cases) or an error annotated with row and col. -/
inductive PubErr where
  | raw (e : DecErr)
  | withPos (e : DecErr) (row col : Nat)
deriving DecidableEq, Repr

/-- Models decoder.go Decoder.  The reader is the remaining input; the
per-variant token buffers that survive across calls (startTagBuf.Attr,
commentBuf.Data, directiveBuf.Data, and the Name fields) are kept because
the code reuses their previous contents when it does not overwrite them. -/
structure Decoder where
  readComment : Bool
  readDirective : Bool
  input : List Char
  row : Nat
  col : Nat
  startedTag : Bool
  selfClosingTag : Option Name
  buf : Buffer
  attrs : attrBuffer
  names : List (List Char × Name)
  startTagName : Option Name
  startTagAttr : Option (List (Option Attr))
  closeTagName : Option Name
  commentData : ByteRef
  directiveData : ByteRef
deriving DecidableEq, Repr

/-- Models NewDecoder (attribute arena grown by 30, empty buffer) with the
two capture options, which in Go are fields set after construction. -/
def NewDecoder (readComment readDirective : Bool) (input : List Char) : Decoder :=
  { readComment := readComment
    readDirective := readDirective
    input := input
    row := 0
    col := 0
    startedTag := false
    selfClosingTag := none
    buf := { store := [], len := 0 }
    attrs := (({ buf := [], pos := 0 } : attrBuffer).growBy 30)
    names := []
    startTagName := none
    startTagAttr := none
    closeTagName := none
    commentData := .owned []
    directiveData := .owned [] }

/-- Models Decoder.next: read one rune, updating row/col; on a newline the
column resets and the row increments, otherwise the column increments (also
at EOF, where ReadRune yields the zero rune). -/
def Decoder.next (d : Decoder) : Option Char × Decoder :=
  match d.input with
  | [] => (none, { d with col := d.col + 1 })
  | c :: rest =>
    if c = '\n' then (some c, { d with input := rest, row := d.row + 1, col := 0 })
    else (some c, { d with input := rest, col := d.col + 1 })

/-- Lookup in the name interner (triemap.RuneSliceMap keyed by the scanned
rune slice). -/
def lookupName (w : List Char) : List (List Char × Name) → Option Name
  | [] => none
  | (k, n) :: rest => if k = w then some n else lookupName w rest

/-- Models strings.SplitN(s, ":", 2): the part before the first colon and
the part after it (callers only use it when a colon is present). -/
def splitNS : List Char → List Char × List Char
  | [] => ([], [])
  | c :: cs => if c = ':' then ([], cs) else
      let p := splitNS cs
      (c :: p.1, p.2)

/-- Models the loop of Decoder.charData: accumulate until '<' (flagging
startedTag) or EOF, error on '>', collapsing whitespace runs to one space.
`fuel` exceeds the remaining input length whenever the decoder calls this. -/
def charDataLoop : Nat → Bool → Decoder → Except DecErr Token × Decoder
  | 0, _, d => (.error .outOfFuel, d)
  | fuel + 1, space, d =>
    match d.next with
    | (none, d') => (.ok (.CharData (.view d'.buf.len)), d')
    | (some r, d') =>
      if r = '<' then (.ok (.CharData (.view d'.buf.len)), { d' with startedTag := true })
      else if r = '>' then (.error (.unexpectedChar r), d')
      else if isSpaceRune r then
        if space then charDataLoop fuel space d'
        else charDataLoop fuel true { d' with buf := d'.buf.writeRune ' ' }
      else charDataLoop fuel false { d' with buf := d'.buf.writeRune r }

/-- Models Decoder.charData: reset the buffer, write the (normalized) start
rune, then run the loop with the space flag set iff the start was whitespace. -/
def Decoder.charData (d : Decoder) (start : Char) : Except DecErr Token × Decoder :=
  let space := isSpaceRune start
  let c := if space then ' ' else start
  charDataLoop (d.input.length + 1) space { d with buf := (d.buf.reset).writeRune c }

/-- Models the loop of Decoder.readString: accumulate verbatim until the
matching quote; EOF is remapped to unexpected EOF. -/
def readStringLoop (quote : Char) : Nat → Decoder → Except DecErr String × Decoder
  | 0, d => (.error .outOfFuel, d)
  | fuel + 1, d =>
    match d.next with
    | (none, d') => (.error .unexpectedEOF, d')
    | (some r, d') =>
      if r = quote then (.ok (String.mk d'.buf.string), d')
      else readStringLoop quote fuel { d' with buf := d'.buf.writeRune r }

/-- Models the loop of Decoder.consume: read runes while `match_` holds
(buffering them when `read`), returning the first rune that fails it; EOF is
remapped to unexpected EOF. -/
def consumeLoop (match_ : Char → Bool) (read : Bool) : Nat → Decoder → Except DecErr Char × Decoder
  | 0, d => (.error .outOfFuel, d)
  | fuel + 1, d =>
    match d.next with
    | (none, d') => (.error .unexpectedEOF, d')
    | (some r, d') =>
      if match_ r then
        consumeLoop match_ read fuel (if read then { d' with buf := d'.buf.writeRune r } else d')
      else (.ok r, d')

/-- Models Decoder.consumeSpace: consume whitespace without buffering. -/
def Decoder.consumeSpace (d : Decoder) : Except DecErr Char × Decoder :=
  consumeLoop isSpaceRune false (d.input.length + 1) d

/-- Models the loop of Decoder.comment: count '-' runes; at '>' succeed when
the count is at least two (capturing the buffer minus its last two chars when
ReadComment is set, otherwise reusing the stale commentBuf.Data), error
otherwise; every other rune is buffered when ReadComment is set. -/
def commentLoop : Nat → Nat → Decoder → Except DecErr Token × Decoder
  | 0, _, d => (.error .outOfFuel, d)
  | fuel + 1, count, d =>
    match d.next with
    | (none, d') => (.error .unexpectedEOF, d')
    | (some r, d') =>
      let count' := if r = '-' then count + 1 else count
      if r = '>' then
        if 2 ≤ count' then
          if d'.readComment then
            (.ok (.Comment (.view (d'.buf.len - 2))), { d' with commentData := .view (d'.buf.len - 2) })
          else (.ok (.Comment d'.commentData), d')
        else (.error .commentTooEarly, d')
      else commentLoop fuel count' (if d'.readComment then { d' with buf := d'.buf.writeRune r } else d')

/-- Models Decoder.comment (the two leading dashes were consumed by
angleStart, which also reset the buffer). -/
def Decoder.comment (d : Decoder) : Except DecErr Token × Decoder :=
  commentLoop (d.input.length + 1) 0 d

/-- Models the loop of Decoder.procInst: scan until '>', which succeeds only
when the previous rune was '?'; contents are always discarded. -/
def procInstLoop : Nat → Bool → Decoder → Except DecErr Token × Decoder
  | 0, _, d => (.error .outOfFuel, d)
  | fuel + 1, questionMark, d =>
    match d.next with
    | (none, d') => (.error .unexpectedEOF, d')
    | (some r, d') =>
      if r = '>' then
        if questionMark then (.ok .ProcInst, d') else (.error .procInstTooEarly, d')
      else procInstLoop fuel (r = '?') d'

/-- Models Decoder.procInst. -/
def Decoder.procInst (d : Decoder) : Except DecErr Token × Decoder :=
  procInstLoop (d.input.length + 1) false d

/-- Models the inner bracket loop of Decoder.directive: while the current
rune opens a bracket group, buffer it (when ReadDirective), consume up to the
matching close bracket, and continue with the rune after the group. -/
def directiveBrackets : Nat → Char → Decoder → Except DecErr Char × Decoder
  | 0, _, d => (.error .outOfFuel, d)
  | fuel + 1, r, d =>
    if r = '[' ∨ r = '{' then
      let d := if d.readDirective then { d with buf := d.buf.writeRune r } else d
      let target := if r = '{' then '}' else ']'
      match consumeLoop (fun c => c != target) d.readDirective (d.input.length + 1) d with
      | (.error e, d') => (.error e, d')
      | (.ok r2, d') => directiveBrackets fuel r2 d'
    else (.ok r, d)

/-- Models the outer loop of Decoder.directive: read a rune, skip bracket
groups, emit the Directive at '>' (capturing the buffer when ReadDirective is
set, otherwise reusing the stale directiveBuf.Data), buffer anything else. -/
def directiveLoop : Nat → Decoder → Except DecErr Token × Decoder
  | 0, d => (.error .outOfFuel, d)
  | fuel + 1, d =>
    match d.next with
    | (none, d') => (.error .unexpectedEOF, d')
    | (some r, d') =>
      match directiveBrackets (d'.input.length + 1) r d' with
      | (.error e, d'') => (.error e, d'')
      | (.ok r2, d'') =>
        if r2 = '>' then
          if d''.readDirective then
            (.ok (.Directive (.view d''.buf.len)), { d'' with directiveData := .view d''.buf.len })
          else (.ok (.Directive d''.directiveData), d'')
        else
          directiveLoop fuel (if d''.readDirective then { d'' with buf := d''.buf.writeRune r2 } else d'')

/-- Models Decoder.directive, entered with the first rune after "<!" (the
buffer was reset by angleStart): an immediate '>' emits right away, any other
first rune is buffered (when ReadDirective) before the scan loop. -/
def Decoder.directive (d : Decoder) (last : Char) : Except DecErr Token × Decoder :=
  if last = '>' then
    if d.readDirective then
      (.ok (.Directive (.view d.buf.len)), { d with directiveData := .view d.buf.len })
    else (.ok (.Directive d.directiveData), d)
  else
    directiveLoop (d.input.length + 1)
      (if d.readDirective then { d with buf := d.buf.writeRune last } else d)

/-- Models the tail of Decoder.readIdentifier after its loop: intern the
scanned spelling; on a miss split on the first ':' when one was found,
rejecting an empty local part, and store the freshly built Name. -/
def readIdentifierFinish (foundNS : Bool) (last : Char) (d : Decoder) :
    Except DecErr (Name × Char) × Decoder :=
  let runes := d.buf.string
  match lookupName runes d.names with
  | some name => (.ok (name, last), d)
  | none =>
    if foundNS then
      let parts := splitNS runes
      if parts.2.length = 0 then (.error (.unexpectedChar ':'), d)
      else
        let name : Name := { space := String.mk parts.1, local_ := String.mk parts.2 }
        (.ok (name, last), { d with names := (runes, name) :: d.names })
    else
      let name : Name := { local_ := String.mk runes, space := "" }
      (.ok (name, last), { d with names := (runes, name) :: d.names })

/-- Models the loop of Decoder.readIdentifier: accumulate identifier runes
and at most one ':'; whitespace (and '=' for attributes) terminates only
after an ASCII letter, '>' terminates unconditionally, anything else is an
unexpected-character error. -/
def readIdentifierLoop (isAttribute : Bool) : Nat → Char → Bool → Decoder →
    Except DecErr (Name × Char) × Decoder
  | 0, _, _, d => (.error .outOfFuel, d)
  | fuel + 1, prev, foundNS, d =>
    match d.next with
    | (none, d') => (.error .unexpectedEOF, d')
    | (some r, d') =>
      if r = ':' ∧ foundNS = false then
        readIdentifierLoop isAttribute fuel r true { d' with buf := d'.buf.writeRune r }
      else if isIdentifierChar r then
        readIdentifierLoop isAttribute fuel r foundNS { d' with buf := d'.buf.writeRune r }
      else if isSpaceRune r ∨ (r = '=' ∧ isAttribute = true) then
        if isASCIILetter prev then readIdentifierFinish foundNS r d'
        else (.error (.unexpectedChar prev), d')
      else if r = '>' then readIdentifierFinish foundNS r d'
      else (.error (.unexpectedChar r), d')

/-- Models Decoder.readIdentifier (prev starts as the zero rune, no
namespace separator seen yet). -/
def Decoder.readIdentifier (d : Decoder) (isAttribute : Bool) :
    Except DecErr (Name × Char) × Decoder :=
  readIdentifierLoop isAttribute (d.input.length + 1) (Char.ofNat 0) false d

/-- Models Decoder.closeTag: skip whitespace, require an ASCII letter, read
the identifier into a reset buffer, skip trailing whitespace, require '>'. -/
def Decoder.closeTag (d : Decoder) : Except DecErr Token × Decoder :=
  match d.consumeSpace with
  | (.error e, d') => (.error e, d')
  | (.ok last, d') =>
    if isASCIILetter last then
      let d'' := { d' with buf := (d'.buf.reset).writeRune last }
      match d''.readIdentifier false with
      | (.error e, e') => (.error e, e')
      | (.ok (name, last2), e') =>
        match (if isSpaceRune last2 then e'.consumeSpace else (.ok last2, e')) with
        | (.error e, e'') => (.error e, e'')
        | (.ok last3, e'') =>
          if last3 = '>' then
            (.ok (.CloseTag (some name)), { e'' with closeTagName := some name })
          else (.error (.unexpectedChar last3), e'')
    else (.error (.unexpectedChar last), d')

/-- Replace the most recently added arena slot, modelling the Go code
setting `attr.Value` after `d.attrs.add(&attr)` stored a pointer to it. -/
def setLastAttrValue (b : attrBuffer) (name : Option Name) (v : String) : attrBuffer :=
  { b with buf := b.buf.set (b.pos - 1) (some { name := name, value := v }) }

/-- Models the attribute loop of Decoder.startTag: skip whitespace; a '/'
marks the tag self-closing and requires an immediate '>' (an EOF here is
wrapped around raw io.EOF, not remapped); '>' emits the StartTag with the
arena contents; otherwise read an attribute identifier, record it (with an
empty value when no '=' follows), and read a quoted value after '='. -/
def startTagLoop : Nat → Decoder → Except DecErr Token × Decoder
  | 0, d => (.error .outOfFuel, d)
  | fuel + 1, d =>
    match d.consumeSpace with
    | (.error e, dA) => (.error e, dA)
    | (.ok l0, dA) =>
      let step : Except DecErr Char × Decoder :=
        if l0 = '/' then
          let dB := { dA with selfClosingTag := dA.startTagName }
          match dB.next with
          | (none, dC) => (.error DecErr.wrappedEOF, dC)
          | (some l1, dC) =>
            if l1 = '>' then (.ok '>', dC) else (.error (.unexpectedChar l1), dC)
        else (.ok l0, dA)
      match step with
      | (.error e, dD) => (.error e, dD)
      | (.ok last, dD) =>
        if last = '>' then
          let g := dD.attrs.get
          (.ok (.StartTag dD.startTagName g.1), { dD with attrs := g.2, startTagAttr := g.1 })
        else if isASCIILetter last then
          let dE := { dD with buf := (dD.buf.reset).writeRune last }
          match dE.readIdentifier true with
          | (.error e, dF) => (.error e, dF)
          | (.ok (name, l2), dF) =>
            match (if isSpaceRune l2 then dF.consumeSpace else (.ok l2, dF)) with
            | (.error e, dG) => (.error e, dG)
            | (.ok l3, dG) =>
              if l3 = '=' ∨ l3 = '>' ∨ isASCIILetter l3 then
                let dH := { dG with attrs := dG.attrs.add { name := some name, value := "" } }
                if l3 = '>' then
                  let g := dH.attrs.get
                  (.ok (.StartTag dH.startTagName g.1), { dH with attrs := g.2, startTagAttr := g.1 })
                else if l3 = '=' then
                  match dH.consumeSpace with
                  | (.error e, dI) => (.error e, dI)
                  | (.ok q, dI) =>
                    if q = '"' ∨ q = Char.ofNat 39 then
                      let dJ := { dI with buf := dI.buf.reset }
                      match readStringLoop q (dJ.input.length + 1) dJ with
                      | (.error e, dK) => (.error e, dK)
                      | (.ok v, dK) =>
                        startTagLoop fuel { dK with attrs := setLastAttrValue dK.attrs (some name) v }
                    else (.error (.unexpectedChar q), dI)
                else startTagLoop fuel dH
              else (.error (.unexpectedChar l3), dG)
        else (.error (.unexpectedChar last), dD)

/-- Models Decoder.startTag, entered after angleStart buffered the first
letter: read the tag identifier; a direct '>' returns the StartTag reusing
the previous startTagBuf.Attr (the code does not clear it on this path);
otherwise reset the arena and run the attribute loop. -/
def Decoder.startTag (d : Decoder) : Except DecErr Token × Decoder :=
  match d.readIdentifier false with
  | (.error e, d') => (.error e, d')
  | (.ok (name, last), d') =>
    let d'' := { d' with startTagName := some name }
    if last = '>' then (.ok (.StartTag (some name) d''.startTagAttr), d'')
    else startTagLoop (d''.input.length + 1) { d'' with attrs := d''.attrs.reset }

/-- Models Decoder.angleStart: dispatch on the rune after '<'; a letter opens
a start tag (buffer reset to it), '/' a close tag, '!' a comment when
followed by "--" or else a directive fed the first non-dash rune, '?' a
processing instruction; anything else is an unexpected-character error. -/
def Decoder.angleStart (d : Decoder) : Except DecErr Token × Decoder :=
  match d.next with
  | (none, d') => (.error .unexpectedEOF, d')
  | (some r, d') =>
    if isASCIILetter r then
      Decoder.startTag { d' with buf := (d'.buf.reset).writeRune r }
    else if r = '/' then d'.closeTag
    else if r = '!' then
      let d'' := { d' with buf := d'.buf.reset }
      match d''.next with
      | (none, e) => (.error .unexpectedEOF, e)
      | (some r2, e) =>
        if r2 = '-' then
          match e.next with
          | (none, e2) => (.error .unexpectedEOF, e2)
          | (some r3, e2) =>
            if r3 = '-' then e2.comment else (.error (.unexpectedChar r3), e2)
        else e.directive r2
    else if r = '?' then d'.procInst
    else (.error (.unexpectedChar r), d')

/-- Models the unexported Decoder.token: pending angle dispatch first, then a
pending synthetic close tag (emitted without reading input), then one rune:
'<' dispatches, '>' is an error, anything else starts character data. -/
def Decoder.token (d : Decoder) : Except DecErr Token × Decoder :=
  if d.startedTag then Decoder.angleStart { d with startedTag := false }
  else
    match d.selfClosingTag with
    | some n => (.ok (.CloseTag (some n)), { d with selfClosingTag := none, closeTagName := some n })
    | none =>
      match d.next with
      | (none, d') => (.error .eof, d')
      | (some r, d') =>
        if r = '<' then d'.angleStart
        else if r = '>' then (.error (.unexpectedChar r), d')
        else d'.charData r

/-- Models the public Decoder.Token: errors not satisfying
errors.Is(err, io.EOF) are annotated with the current row (1-indexed) and
column; EOF-satisfying errors pass through unannotated. -/
def Decoder.Token (d : Decoder) : Except PubErr Token × Decoder :=
  match Decoder.token d with
  | (.error e, d') =>
    if e.isEOF then (.error (.raw e), d')
    else (.error (.withPos e (d'.row + 1) d'.col), d')
  | (.ok t, d') => (.ok t, d')

/-! Helper lemmas about the buffer model. -/

theorem take_write (s : List Char) (n : Nat) (c : Char) :
    (s.take n ++ c :: s.drop (n + 1)).take (n + 1) = s.take n ++ [c] := by
  induction s generalizing n with
  | nil => simp
  | cons a t ih =>
    cases n with
    | zero => simp
    | succ m => simpa using ih m

/-- Writing a rune extends the logical contents by that rune. -/
theorem Buffer.writeRune_string (b : Buffer) (c : Char) :
    (b.writeRune c).string = b.string ++ [c] := by
  simp [Buffer.writeRune, Buffer.string, take_write]

/-- Writing a rune increments the logical length. -/
theorem Buffer.writeRune_len (b : Buffer) (c : Char) : (b.writeRune c).len = b.len + 1 := rfl

/-- Reading a full-length view yields the buffer contents. -/
theorem ByteRef.read_view_len (b : Buffer) : ByteRef.read (.view b.len) b = b.string := rfl

/-!
C1.  The spec's self-closing example `<foo/>` is rejected by the code:
readIdentifier's switch has no case for '/', so scanning the tag name hits
the default unexpected-character branch.  Self-closing works only when the
slash is separated from the name (`<foo />`), via the attribute loop.
-/

/-- C1 counterexample: for the claim's input `<foo/>` the first Token() call
does not yield a StartTag at all; it fails with an unexpected-character
error on '/' (annotated at row 1, col 5). -/
theorem c1_counterexample :
    (Decoder.Token (NewDecoder false false ['<', 'f', 'o', 'o', '/', '>'])).1
      = .error (.withPos (.unexpectedChar '/') 1 5) := rfl

/-- C1 amended: for input `<foo />` (slash preceded by whitespace) followed
by arbitrary further input, the first two Token() calls yield exactly
StartTag{foo} and then CloseTag{foo} — hence zero CharData tokens between
them — and the synthesized CloseTag consumes no input: the remaining input
already equals the continuation after the StartTag and is untouched by the
CloseTag call. -/
theorem c1_selfclosing_synthesis (rest : List Char) :
    (Decoder.Token (NewDecoder false false (['<', 'f', 'o', 'o', ' ', '/', '>'] ++ rest))).1
        = .ok (.StartTag (some ⟨"foo", ""⟩) none) ∧
    (Decoder.Token (NewDecoder false false (['<', 'f', 'o', 'o', ' ', '/', '>'] ++ rest))).2.input
        = rest ∧
    (Decoder.Token
        (Decoder.Token (NewDecoder false false (['<', 'f', 'o', 'o', ' ', '/', '>'] ++ rest))).2).1
        = .ok (.CloseTag (some ⟨"foo", ""⟩)) ∧
    (Decoder.Token
        (Decoder.Token (NewDecoder false false (['<', 'f', 'o', 'o', ' ', '/', '>'] ++ rest))).2).2.input
        = rest :=
  ⟨rfl, rfl, rfl, rfl⟩

/-!
C2.  Namespace splitting itself works (the interned Name carries
space = "lol", local = "foo", and the two malformed inputs error), but the
accessor (n *Name).Space() returns `n.local` instead of `n.space`,
contradicting its own doc comment ("For example <a:b> ... This method will
return \"a\"").
-/

/-- C2: decoding `<lol:foo>` builds the Name with local "foo" and space
"lol", and `<foo:>` / `<f:o:o>` fail with unexpected-character errors on the
colon, as claimed; Name.Local behaves as claimed (including the nil case),
but Name.Space on that very Name returns "foo" — the local part, not the
claimed namespace prefix "lol" — because its body returns n.local. -/
theorem c2_space_returns_local :
    (Decoder.Token (NewDecoder false false ['<', 'l', 'o', 'l', ':', 'f', 'o', 'o', '>'])).1
        = .ok (.StartTag (some ⟨"foo", "lol"⟩) none) ∧
    Name.Local (some ⟨"foo", "lol"⟩) = "foo" ∧
    Name.Space (some ⟨"foo", "lol"⟩) = "foo" ∧
    Name.Space (some ⟨"foo", "lol"⟩) ≠ "lol" ∧
    Name.Local none = "" ∧
    Name.Space none = "" ∧
    (Decoder.Token (NewDecoder false false ['<', 'f', 'o', 'o', ':', '>'])).1
        = .error (.withPos (.unexpectedChar ':') 1 6) ∧
    (Decoder.Token (NewDecoder false false ['<', 'f', ':', 'o', ':', 'o', '>'])).1
        = .error (.withPos (.unexpectedChar ':') 1 5) :=
  ⟨rfl, rfl, rfl, by decide, rfl, rfl, rfl, rfl⟩

/-!
C3.  Comment.Copy (and Directive.Copy) is the shallow struct copy `c := *t`:
the copied Data slice still points into the decoder's shared buffer, whose
bytes are overwritten by the next Token() call.  Decoding two comments with
ReadComment enabled shows the copy of the first comment changing from "ab"
to "xy".
-/

/-- C3: with ReadComment enabled on input `<!--ab--><!--xy-->`, the first
Token() yields a Comment whose data reads "ab"; its Copy carries the very
same buffer view (the shallow struct copy duplicates only the slice
header), so after the second Token() call overwrites the shared buffer the
copy's data reads "xy" — the copy does not remain unchanged under
subsequent Token() calls, contradicting the claim. -/
theorem c3_comment_copy_not_independent :
    (Decoder.Token (NewDecoder true false
        ['<', '!', '-', '-', 'a', 'b', '-', '-', '>',
         '<', '!', '-', '-', 'x', 'y', '-', '-', '>'])).1
      = .ok (.Comment (.view 2)) ∧
    Token.Copy (.Comment (.view 2))
        (Decoder.Token (NewDecoder true false
          ['<', '!', '-', '-', 'a', 'b', '-', '-', '>',
           '<', '!', '-', '-', 'x', 'y', '-', '-', '>'])).2.buf
      = .Comment (.view 2) ∧
    ByteRef.read (.view 2)
        (Decoder.Token (NewDecoder true false
          ['<', '!', '-', '-', 'a', 'b', '-', '-', '>',
           '<', '!', '-', '-', 'x', 'y', '-', '-', '>'])).2.buf
      = ['a', 'b'] ∧
    ByteRef.read (.view 2)
        (Decoder.Token (Decoder.Token (NewDecoder true false
          ['<', '!', '-', '-', 'a', 'b', '-', '-', '>',
           '<', '!', '-', '-', 'x', 'y', '-', '-', '>'])).2).2.buf
      = ['x', 'y'] ∧
    (['x', 'y'] : List Char) ≠ ['a', 'b'] :=
  ⟨rfl, rfl, rfl, rfl, by decide⟩

/-!
C4.  Whitespace collapse in character data.
-/

/-- Reading one rune from a nonempty input: the rune is popped and only the
position fields change. -/
theorem Decoder.next_eq (d : Decoder) (c : Char) (rest : List Char) (hi : d.input = c :: rest) :
    d.next = (some c,
      { d with input := rest,
               row := if c = '\n' then d.row + 1 else d.row,
               col := if c = '\n' then 0 else d.col + 1 }) := by
  simp only [Decoder.next, hi]
  split <;> simp_all

/-- Modelled from the spec's wording for whitespace normalization: a run of
whitespace collapses to one space (suppressed entirely when the previous
emitted character already was that collapsed space), non-whitespace passes
through; the flag records whether the previous character was whitespace. -/
def wsCollapse (space : Bool) : List Char → List Char
  | [] => []
  | c :: cs =>
    if isSpaceRune c then
      (if space then wsCollapse true cs else ' ' :: wsCollapse true cs)
    else c :: wsCollapse false cs

/-- The charData loop, run to end of input on a body free of angle brackets,
emits a CharData view of the buffer, whose contents grow by the
whitespace-collapsed body. -/
theorem charDataLoop_spec (body : List Char) (h : ∀ c ∈ body, ¬(c = '<' ∨ c = '>'))
    (sp : Bool) (d : Decoder) (fuel : Nat) (hf : body.length < fuel) (hi : d.input = body) :
    (charDataLoop fuel sp d).1 = .ok (.CharData (.view (charDataLoop fuel sp d).2.buf.len)) ∧
    (charDataLoop fuel sp d).2.buf.string = d.buf.string ++ wsCollapse sp body ∧
    (charDataLoop fuel sp d).2.input = [] := by
  induction body generalizing sp d fuel with
  | nil =>
    match fuel, hf with
    | f + 1, _ =>
      simp [charDataLoop, Decoder.next, hi, wsCollapse]
  | cons c cs ih =>
    match fuel, hf with
    | f + 1, hf =>
      have hc := h c (List.mem_cons_self c cs)
      push_neg at hc
      obtain ⟨hc1, hc2⟩ := hc
      have h' : ∀ x ∈ cs, ¬(x = '<' ∨ x = '>') := fun x hx => h x (List.mem_cons_of_mem c hx)
      have hf' : cs.length < f := by
        simpa using Nat.lt_of_succ_lt_succ hf
      rw [charDataLoop, Decoder.next_eq d c cs hi]
      simp only [hc1, hc2, if_false]
      cases hsp : isSpaceRune c with
      | false =>
        simp only [hsp, Bool.false_eq_true, if_false]
        refine ⟨(ih h' false _ f hf' (by simp)).1, ?_, (ih h' false _ f hf' (by simp)).2.2⟩
        rw [(ih h' false _ f hf' (by simp)).2.1]
        simp [Buffer.writeRune_string, wsCollapse, hsp]
      | true =>
        cases sp with
        | true =>
          simp only [hsp, if_true]
          refine ⟨(ih h' true _ f hf' (by simp)).1, ?_, (ih h' true _ f hf' (by simp)).2.2⟩
          rw [(ih h' true _ f hf' (by simp)).2.1]
          simp [wsCollapse, hsp]
        | false =>
          simp only [hsp, if_true, Bool.false_eq_true, if_false]
          refine ⟨(ih h' true _ f hf' (by simp)).1, ?_, (ih h' true _ f hf' (by simp)).2.2⟩
          rw [(ih h' true _ f hf' (by simp)).2.1]
          simp [Buffer.writeRune_string, wsCollapse, hsp]

/-- C4: character-data tokenization collapses whitespace.  General part: for
any start rune and any bracket-free remaining input, the charData production
runs to end of input and the emitted CharData view reads exactly the
whitespace-collapse of the full run (start rune included: a leading
whitespace run is emitted as exactly one space).  Concrete part: the input
` \n\t a   b ` yields payload " a b " through the public Token(). -/
theorem c4_whitespace_collapse :
    (∀ (start : Char) (body : List Char) (d : Decoder),
      (∀ c ∈ body, ¬(c = '<' ∨ c = '>')) → d.input = body →
      (d.charData start).1 = .ok (.CharData (.view (d.charData start).2.buf.len)) ∧
      ByteRef.read (.view (d.charData start).2.buf.len) (d.charData start).2.buf
          = wsCollapse false (start :: body) ∧
      (d.charData start).2.input = []) ∧
    (Decoder.Token (NewDecoder false false
        [' ', '\n', '\t', ' ', 'a', ' ', ' ', ' ', 'b', ' '])).1
      = .ok (.CharData (.view 5)) ∧
    ByteRef.read (.view 5)
        (Decoder.Token (NewDecoder false false
          [' ', '\n', '\t', ' ', 'a', ' ', ' ', ' ', 'b', ' '])).2.buf
      = [' ', 'a', ' ', 'b', ' '] := by
  refine ⟨?_, rfl, rfl⟩
  intro start body d h hi
  have main := charDataLoop_spec body h (isSpaceRune start)
      { d with buf := (d.buf.reset).writeRune (if isSpaceRune start then ' ' else start) }
      (d.input.length + 1) (by simp [hi]) (by simpa using hi)
  refine ⟨main.1, ?_, main.2.2⟩
  rw [ByteRef.read_view_len, Decoder.charData]
  rw [main.2.1, Buffer.writeRune_string]
  cases hsp : isSpaceRune start with
  | false => simp [Buffer.reset, Buffer.string, wsCollapse, hsp]
  | true => simp [Buffer.reset, Buffer.string, wsCollapse, hsp]

/-- C4 witness: the general part of the collapse theorem applied to the
concrete run ` \n\t a   b ` (start rune ' ', body the remaining nine
characters), whose collapsed payload is " a b ". -/
theorem c4_whitespace_collapse_witness :
    ((NewDecoder false false [] ).charData ' ' |>.1) =
        (((NewDecoder false false []).charData ' ').1) ∧
    (({ NewDecoder false false [] with
        input := ['\n', '\t', ' ', 'a', ' ', ' ', ' ', 'b', ' '] } : Decoder).charData ' ').1
      = .ok (.CharData (.view
          ((({ NewDecoder false false [] with
              input := ['\n', '\t', ' ', 'a', ' ', ' ', ' ', 'b', ' '] } : Decoder).charData ' ').2.buf.len))) ∧
    ByteRef.read
        (.view ((({ NewDecoder false false [] with
            input := ['\n', '\t', ' ', 'a', ' ', ' ', ' ', 'b', ' '] } : Decoder).charData ' ').2.buf.len))
        ((({ NewDecoder false false [] with
            input := ['\n', '\t', ' ', 'a', ' ', ' ', ' ', 'b', ' '] } : Decoder).charData ' ').2.buf)
      = [' ', 'a', ' ', 'b', ' '] := by
  have h := c4_whitespace_collapse.1 ' ' ['\n', '\t', ' ', 'a', ' ', ' ', ' ', 'b', ' ']
      ({ NewDecoder false false [] with input := ['\n', '\t', ' ', 'a', ' ', ' ', ' ', 'b', ' '] })
      (by decide) rfl
  exact ⟨rfl, h.1, h.2.1.trans (by decide)⟩

/-!
C5.  Comment closing: the scanner accepts the first '>' once at least two
'-' runes have been seen anywhere before it, and captures the interior
minus its final two characters when ReadComment is enabled.
-/

/-- The comment loop on a '>'-free prefix followed by '>': succeeds at that
first '>' when the running dash count reaches two, capturing the prefix in
the buffer and emitting a view two short of it; errors with the
closed-too-early error otherwise. -/
theorem commentLoop_spec (body : List Char) (h : '>' ∉ body) (rest : List Char)
    (count : Nat) (d : Decoder) (fuel : Nat) (hf : body.length < fuel)
    (hi : d.input = body ++ '>' :: rest) :
    (2 ≤ count + body.count '-' →
        (commentLoop fuel count d).2.input = rest ∧
        (d.readComment = true →
          (commentLoop fuel count d).1
            = .ok (.Comment (.view ((commentLoop fuel count d).2.buf.len - 2))) ∧
          (commentLoop fuel count d).2.buf.string = d.buf.string ++ body ∧
          (commentLoop fuel count d).2.buf.len = d.buf.len + body.length) ∧
        (d.readComment = false →
          (commentLoop fuel count d).1 = .ok (.Comment d.commentData) ∧
          (commentLoop fuel count d).2.buf = d.buf)) ∧
    (count + body.count '-' < 2 →
        (commentLoop fuel count d).1 = .error .commentTooEarly ∧
        (commentLoop fuel count d).2.input = rest) := by
  induction body generalizing count d fuel with
  | nil =>
    match fuel, hf with
    | f + 1, _ =>
      rw [commentLoop, Decoder.next_eq d '>' rest hi]
      constructor
      · intro h2
        simp only [List.count_nil, Nat.add_zero] at h2
        cases hrc : d.readComment <;> simp [h2, hrc, Buffer.string]
      · intro hlt
        simp only [List.count_nil, Nat.add_zero] at hlt
        simp [Nat.not_le.mpr hlt]
  | cons c cs ih =>
    match fuel, hf with
    | f + 1, hf =>
      have hc : ¬(c = '>') := fun hh => h (hh ▸ List.mem_cons_self c cs)
      have h' : '>' ∉ cs := fun hh => h (List.mem_cons_of_mem c hh)
      have hf' : cs.length < f := by simpa using Nat.lt_of_succ_lt_succ hf
      rw [commentLoop, Decoder.next_eq d c (cs ++ '>' :: rest) (by simpa using hi)]
      simp only [hc, if_false]
      cases hrc : d.readComment with
      | false =>
        simp only [hrc, Bool.false_eq_true, if_false]
        constructor
        · intro h2
          have h2' : 2 ≤ (if c = '-' then count + 1 else count) + cs.count '-' := by
            by_cases hd : c = '-' <;> simp [List.count_cons, hd, beq_iff_eq] at h2 ⊢ <;> omega
          refine ⟨((ih h' _ _ f hf' (by simp)).1 h2').1,
                  fun hcon => absurd hcon (by simp [hrc]),
                  fun _ => ?_⟩
          refine ⟨(((ih h' _ _ f hf' (by simp)).1 h2').2.2 (by simp [hrc])).1.trans (by simp),
                  (((ih h' _ _ f hf' (by simp)).1 h2').2.2 (by simp [hrc])).2.trans (by simp)⟩
        · intro hlt
          have hlt' : (if c = '-' then count + 1 else count) + cs.count '-' < 2 := by
            by_cases hd : c = '-' <;> simp [List.count_cons, hd, beq_iff_eq] at hlt ⊢ <;> omega
          exact (ih h' _ _ f hf' (by simp)).2 hlt'
      | true =>
        simp only [hrc, if_true]
        constructor
        · intro h2
          have h2' : 2 ≤ (if c = '-' then count + 1 else count) + cs.count '-' := by
            by_cases hd : c = '-' <;> simp [List.count_cons, hd, beq_iff_eq] at h2 ⊢ <;> omega
          refine ⟨((ih h' _ _ f hf' (by simp)).1 h2').1,
                  fun _ => ?_,
                  fun hcon => absurd hcon (by simp [hrc])⟩
          refine ⟨(((ih h' _ _ f hf' (by simp)).1 h2').2.1 (by simp [hrc])).1,
                  (((ih h' _ _ f hf' (by simp)).1 h2').2.1 (by simp [hrc])).2.1.trans
                    (by simp [Buffer.writeRune_string]),
                  (((ih h' _ _ f hf' (by simp)).1 h2').2.1 (by simp [hrc])).2.2.trans
                    (by simp [Buffer.writeRune_len]; omega)⟩
        · intro hlt
          have hlt' : (if c = '-' then count + 1 else count) + cs.count '-' < 2 := by
            by_cases hd : c = '-' <;> simp [List.count_cons, hd, beq_iff_eq] at hlt ⊢ <;> omega
          exact (ih h' _ _ f hf' (by simp)).2 hlt'

/-- C5: the comment production terminates successfully at the first '>'
provided at least two '-' characters occurred anywhere earlier in the
comment body (not necessarily adjacent), yielding — when capture is enabled
— the interior text with its trailing two characters stripped; a '>'
reached before two dashes have been seen is the closed-too-early error. -/
theorem c5_comment_closing (body rest : List Char) (d : Decoder)
    (h : '>' ∉ body) (hi : d.input = body ++ '>' :: rest) (hb : d.buf.len = 0) :
    (2 ≤ body.count '-' →
        (d.comment).2.input = rest ∧
        (d.readComment = true →
          (d.comment).1 = .ok (.Comment (.view (body.length - 2))) ∧
          ByteRef.read (.view (body.length - 2)) (d.comment).2.buf
            = body.take (body.length - 2)) ∧
        (d.readComment = false → (d.comment).1 = .ok (.Comment d.commentData))) ∧
    (body.count '-' < 2 →
        (d.comment).1 = .error .commentTooEarly ∧ (d.comment).2.input = rest) := by
  have hstr : d.buf.string = [] := by simp [Buffer.string, hb]
  have key := commentLoop_spec body h rest 0 d (d.input.length + 1) (by simp [hi]; omega) hi
  rw [Decoder.comment]
  refine ⟨fun h2 => ?_, fun hlt => key.2 (by simpa using hlt)⟩
  have ks := key.1 (by simpa using h2)
  refine ⟨ks.1, fun hrc => ?_, fun hrc => (ks.2.2 hrc).1⟩
  have kk := ks.2.1 hrc
  have hlen : (commentLoop (d.input.length + 1) 0 d).2.buf.len = body.length := by
    rw [kk.2.2, hb, Nat.zero_add]
  have hstring : (commentLoop (d.input.length + 1) 0 d).2.buf.string = body := by
    rw [kk.2.1, hstr, List.nil_append]
  refine ⟨by rw [kk.1, hlen], ?_⟩
  have : ByteRef.read (.view (body.length - 2)) (commentLoop (d.input.length + 1) 0 d).2.buf
      = ((commentLoop (d.input.length + 1) 0 d).2.buf.string).take (body.length - 2) := by
    rw [ByteRef.read, Buffer.string, ← hlen, List.take_take]
    congr 1
    omega
  rw [this, hstring]

/-- C5 witness: the theorem applied to the comment body "a--b" (dashes not
adjacent to the '>'), which is accepted at the first '>' with captured text
"a-", and to the body " -" (a single dash), which is closed too early. -/
theorem c5_comment_closing_witness :
    (({ NewDecoder true false [] with
        input := ['a', '-', '-', 'b', '>', 'z'] } : Decoder).comment).1
      = .ok (.Comment (.view 2)) ∧
    ByteRef.read (.view 2)
        (({ NewDecoder true false [] with
            input := ['a', '-', '-', 'b', '>', 'z'] } : Decoder).comment).2.buf
      = ['a', '-'] ∧
    (({ NewDecoder true false [] with
        input := ['a', '-', '-', 'b', '>', 'z'] } : Decoder).comment).2.input = ['z'] ∧
    (({ NewDecoder true false [] with
        input := [' ', '-', '>'] } : Decoder).comment).1 = .error .commentTooEarly := by
  have hok := c5_comment_closing ['a', '-', '-', 'b'] ['z']
      ({ NewDecoder true false [] with input := ['a', '-', '-', 'b', '>', 'z'] })
      (by decide) rfl rfl
  have herr := c5_comment_closing [' ', '-'] []
      ({ NewDecoder true false [] with input := [' ', '-', '>'] })
      (by decide) rfl rfl
  have h2 : 2 ≤ (['a', '-', '-', 'b'] : List Char).count '-' := by decide
  have h1 : (([' ', '-'] : List Char).count '-') < 2 := by decide
  exact ⟨((hok.1 h2).2.1 rfl).1, ((hok.1 h2).2.1 rfl).2, (hok.1 h2).1, (herr.2 h1).1⟩

/-!
C6.  Directive bracket skipping.
-/

/-- The consume loop on a prefix of matching runes followed by a
non-matching rune: returns that rune, leaves the rest of the input, and
buffers exactly the prefix when `read` is set. -/
theorem consumeLoop_spec (match_ : Char → Bool) (read : Bool) (seg : List Char)
    (h : ∀ c ∈ seg, match_ c = true) (t : Char) (ht : match_ t = false)
    (rest : List Char) (d : Decoder) (fuel : Nat) (hf : seg.length < fuel)
    (hi : d.input = seg ++ t :: rest) :
    (consumeLoop match_ read fuel d).1 = .ok t ∧
    (consumeLoop match_ read fuel d).2.input = rest ∧
    (read = true → (consumeLoop match_ read fuel d).2.buf.string = d.buf.string ++ seg) ∧
    (read = false → (consumeLoop match_ read fuel d).2.buf = d.buf) := by
  induction seg generalizing read d fuel with
  | nil =>
    match fuel, hf with
    | f + 1, _ =>
      rw [consumeLoop, Decoder.next_eq d t rest hi]
      simp [ht]
  | cons c cs ih =>
    match fuel, hf with
    | f + 1, hf =>
      have hc := h c (List.mem_cons_self c cs)
      have h' : ∀ x ∈ cs, match_ x = true := fun x hx => h x (List.mem_cons_of_mem c hx)
      have hf' : cs.length < f := by simpa using Nat.lt_of_succ_lt_succ hf
      rw [consumeLoop, Decoder.next_eq d c (cs ++ t :: rest) (by simpa using hi)]
      simp only [hc, eq_self_iff_true, if_true]
      by_cases hread : read = true
      · simp only [hread, if_true]
        exact ⟨(ih true h' _ f hf' (by simp)).1, (ih true h' _ f hf' (by simp)).2.1,
               fun _ => ((ih true h' _ f hf' (by simp)).2.2.1 rfl).trans
                 (by simp [Buffer.writeRune_string]),
               fun hcon => absurd hcon (by simp)⟩
      · simp only [Bool.not_eq_true] at hread
        simp only [hread, Bool.false_eq_true, if_false]
        exact ⟨(ih false h' _ f hf' (by simp)).1, (ih false h' _ f hf' (by simp)).2.1,
               fun hcon => absurd hcon (by simp),
               fun _ => ((ih false h' _ f hf' (by simp)).2.2.2 rfl).trans (by simp)⟩

deriving instance DecidableEq for Except

/-- C6: general part — a bracket group's consume scan runs through every
rune (tokenlessly, errorlessly) up to the first closing rune, buffering the
interior when capture is on; concrete part — `<!ENTITY [<bar></bar>]>`
followed by more markup yields a single Directive token in one Token() call
(the bracketed `<bar></bar>` produces no tokens of its own), whose captured
data with ReadDirective enabled is the literal interior
`ENTITY [<bar></bar>]`, and the input after the call is exactly the
continuation past the directive's closing '>'. -/
theorem c6_directive_bracket_skipping :
    (∀ (match_ : Char → Bool) (read : Bool) (seg : List Char) (t : Char)
       (rest : List Char) (d : Decoder) (fuel : Nat),
       (∀ c ∈ seg, match_ c = true) → match_ t = false →
       seg.length < fuel → d.input = seg ++ t :: rest →
       (consumeLoop match_ read fuel d).1 = .ok t ∧
       (consumeLoop match_ read fuel d).2.input = rest ∧
       (read = true →
         (consumeLoop match_ read fuel d).2.buf.string = d.buf.string ++ seg)) ∧
    ((Decoder.Token (NewDecoder false true
         ['<', '!', 'E', 'N', 'T', 'I', 'T', 'Y', ' ', '[', '<', 'b', 'a', 'r', '>',
          '<', '/', 'b', 'a', 'r', '>', ']', '>', '<', 'x', '>'])).1
       = .ok (.Directive (.view 20)) ∧
     ByteRef.read (.view 20)
         (Decoder.Token (NewDecoder false true
           ['<', '!', 'E', 'N', 'T', 'I', 'T', 'Y', ' ', '[', '<', 'b', 'a', 'r', '>',
            '<', '/', 'b', 'a', 'r', '>', ']', '>', '<', 'x', '>'])).2.buf
       = ['E', 'N', 'T', 'I', 'T', 'Y', ' ', '[', '<', 'b', 'a', 'r', '>',
          '<', '/', 'b', 'a', 'r', '>', ']'] ∧
     (Decoder.Token (NewDecoder false true
         ['<', '!', 'E', 'N', 'T', 'I', 'T', 'Y', ' ', '[', '<', 'b', 'a', 'r', '>',
          '<', '/', 'b', 'a', 'r', '>', ']', '>', '<', 'x', '>'])).2.input
       = ['<', 'x', '>']) := by
  constructor
  · intro match_ read seg t rest d fuel h ht hf hi
    have key := consumeLoop_spec match_ read seg h t ht rest d fuel hf hi
    exact ⟨key.1, key.2.1, key.2.2.1⟩
  · exact ⟨by decide, by decide, by decide⟩

/-- C6 witness: the general conjunct applied to the bracket group interior
`<x>` scanned by the directive's consume call towards its closing ']'. -/
theorem c6_directive_bracket_skipping_witness :
    (consumeLoop (fun c => c != ']') true 5
        ({ NewDecoder false true [] with input := ['<', 'x', '>', ']', 'q'] })).1 = .ok ']' ∧
    (consumeLoop (fun c => c != ']') true 5
        ({ NewDecoder false true [] with input := ['<', 'x', '>', ']', 'q'] })).2.input = ['q'] := by
  have h := c6_directive_bracket_skipping.1 (fun c => c != ']') true ['<', 'x', '>'] ']' ['q']
      ({ NewDecoder false true [] with input := ['<', 'x', '>', ']', 'q'] }) 5
      (by decide) (by decide) (by decide) rfl
  exact ⟨h.1, h.2.1⟩

/-!
C7.  Position annotation of errors.  The public Token() wraps an error with
"at row: r col: c" exactly when errors.Is(err, io.EOF) fails; but the
self-close branch of startTag wraps the raw io.EOF from next() (without the
checkUnexpectedEOF remap used everywhere else), so a truncated `<foo /`
fails mid-token yet escapes annotation (and is mistaken for a clean end of
stream by errors.Is).
-/

/-- C7: the public Token() annotates every error whose identity is not
io.EOF with the current 1-indexed row and the column, both maintained by
next() (newline: row+1, column reset; otherwise column+1, and the clean EOF
signal passes through unannotated); yet the input `<foo /`, whose decoding
fails strictly inside a start tag, returns an unannotated error satisfying
errors.Is(err, io.EOF) because the self-close branch wraps the raw io.EOF. -/
theorem c7_position_reporting :
    (∀ (d : Decoder) (e : DecErr) (d' : Decoder),
       Decoder.token d = (.error e, d') → e.isEOF = false →
       Decoder.Token d = (.error (.withPos e (d'.row + 1) d'.col), d')) ∧
    (∀ (d d' : Decoder),
       Decoder.token d = (.error .eof, d') → Decoder.Token d = (.error (.raw .eof), d')) ∧
    (∀ (d : Decoder) (c : Char) (rest : List Char),
       d.input = c :: rest →
       ((d.next).2.row = if c = '\n' then d.row + 1 else d.row) ∧
       ((d.next).2.col = if c = '\n' then 0 else d.col + 1)) ∧
    (Decoder.Token (NewDecoder false false ['<', 'f', 'o', 'o', ' ', '/'])).1
      = .error (.raw .wrappedEOF) ∧
    DecErr.isEOF .wrappedEOF = true := by
  refine ⟨?_, ?_, ?_, rfl, rfl⟩
  · intro d e d' hede
    intro he
    rw [Decoder.Token, hede]
    simp [he]
  · intro d d' hed
    rw [Decoder.Token, hed]
    simp [DecErr.isEOF]
  · intro d c rest hi
    rw [Decoder.next_eq d c rest hi]
    exact ⟨rfl, rfl⟩

/-- C7 witness: the annotation conjunct applied to the unexpected '>' at the
very start of the input, annotated at row 1 (1-indexed from row counter 0)
and column 1; and the next() rule applied to a newline. -/
theorem c7_position_reporting_witness :
    Decoder.Token (NewDecoder false false ['>'])
      = (.error (.withPos (.unexpectedChar '>') 1 1),
         (Decoder.token (NewDecoder false false ['>'])).2) ∧
    ((NewDecoder false false ['\n', 'x']).next).2.row = 1 ∧
    ((NewDecoder false false ['\n', 'x']).next).2.col = 0 := by
  refine ⟨c7_position_reporting.1 (NewDecoder false false ['>']) (.unexpectedChar '>')
      (Decoder.token (NewDecoder false false ['>'])).2 rfl rfl, ?_, ?_⟩
  · exact (c7_position_reporting.2.2.1 (NewDecoder false false ['\n', 'x']) '\n' ['x'] rfl).1
  · exact (c7_position_reporting.2.2.1 (NewDecoder false false ['\n', 'x']) '\n' ['x'] rfl).2

/-!
C9.  Attribute arena.  The growth check in add is `pos+1 == len(buf)`, so
the arena grows while one slot is still free (the append then fills the
second-to-last slot), never first reaching a truly full state.
-/

/-- C9 counterexample: an arena with capacity 3 and cursor 2 is not full
(the cursor is still below the capacity, a slot is free), yet add grows the
backing storage from 3 to 5 — growth does not happen "exactly when the
arena is full". -/
theorem c9_counterexample :
    (({ buf := [none, none, none], pos := 2 } : attrBuffer).add
        { name := none, value := "" }).buf.length = 5 ∧
    ({ buf := [none, none, none], pos := 2 } : attrBuffer).pos
      < ({ buf := [none, none, none], pos := 2 } : attrBuffer).buf.length := by
  decide

/-- C9 amended: add(attr) stores the attribute at the cursor and advances
it, growing the backing storage by 2/3 of its current capacity exactly when
the append targets the last free slot (cursor+1 = capacity) — that is, one
append before the arena would become full — and get() returns nil (an
explicit no-attributes result) when the cursor is zero, otherwise the first
cursor-many slots in insertion order, resetting the cursor. -/
theorem c9_arena_spec (b : attrBuffer) (a : Attr) :
    (b.pos + 1 = b.buf.length →
      (b.add a).buf.length = b.buf.length + b.buf.length * 2 / 3) ∧
    (b.pos + 1 ≠ b.buf.length → (b.add a).buf.length = b.buf.length) ∧
    (b.pos < b.buf.length → (b.add a).buf[b.pos]? = some (some a)) ∧
    (b.add a).pos = b.pos + 1 ∧
    (b.pos = 0 → b.get = (none, b)) ∧
    (b.pos ≠ 0 →
      b.get.1 = some (b.buf.take b.pos) ∧ b.get.2.pos = 0 ∧ b.get.2.buf = b.buf) := by
  refine ⟨fun hfull => ?_, fun hnot => ?_, fun hlt => ?_, ?_, fun h0 => ?_, fun h0 => ?_⟩
  · simp [attrBuffer.add, attrBuffer.growBy, hfull]
  · simp [attrBuffer.add, attrBuffer.growBy, hnot]
  · by_cases hfull : b.pos + 1 = b.buf.length
    · have : b.pos < (b.buf ++ List.replicate (b.buf.length * 2 / 3) none).length := by
        simp
        omega
      simp [attrBuffer.add, attrBuffer.growBy, hfull, List.getElem?_set_self this]
    · simp [attrBuffer.add, attrBuffer.growBy, hfull, List.getElem?_set_self hlt]
  · by_cases hfull : b.pos + 1 = b.buf.length <;>
      simp [attrBuffer.add, attrBuffer.growBy, hfull]
  · simp [attrBuffer.get, h0, attrBuffer.reset]
  · simp [attrBuffer.get, h0, attrBuffer.reset]

/-- C9 witness: the amended arena specification applied to the concrete
arena of the counterexample (capacity 3, cursor 2: the append targets the
last free slot, so the arena grows to 5 and the attribute lands at index 2)
and to a one-entry arena for the get() clauses. -/
theorem c9_arena_spec_witness :
    (({ buf := [none, none, none], pos := 2 } : attrBuffer).add
        { name := none, value := "v" }).buf.length = 3 + 3 * 2 / 3 ∧
    (({ buf := [none, none, none], pos := 2 } : attrBuffer).add
        { name := none, value := "v" }).buf[2]? = some (some { name := none, value := "v" }) ∧
    ({ buf := [some { name := none, value := "v" }, none], pos := 1 } : attrBuffer).get.1
      = some [some { name := none, value := "v" }] := by
  refine ⟨(c9_arena_spec { buf := [none, none, none], pos := 2 }
            { name := none, value := "v" }).1 (by decide),
          (c9_arena_spec { buf := [none, none, none], pos := 2 }
            { name := none, value := "v" }).2.2.1 (by decide),
          ((c9_arena_spec { buf := [some { name := none, value := "v" }, none], pos := 1 }
            { name := none, value := "v" }).2.2.2.2.2 (by decide)).1.trans (by decide)⟩

/-!
C10.  The trailing-character validity check (last accumulated rune must be
an ASCII letter) runs only on the whitespace and attribute-'=' terminators;
'>' terminates unconditionally.
-/

/-- The identifier loop scanning identifier runes with no namespace
separator seen: termination at '>' always succeeds (interning never fails
without a separator), while termination at whitespace (or '=' for an
attribute identifier) fails with an unexpected-character error naming the
last accumulated rune whenever that rune is not an ASCII letter. -/
theorem isSpace_not_identifier (c : Char) (h : isSpaceRune c = true) :
    isIdentifierChar c = false := by
  simp only [isSpaceRune, Bool.or_eq_true, decide_eq_true_eq] at h
  rcases h with ((((((h | h) | h) | h) | h) | h) | h) | h <;> subst h <;> decide

/-- Interning an identifier with no namespace separator always succeeds,
whether the spelling was cached or is stored fresh. -/
theorem readIdentifierFinish_false_ok (last : Char) (d : Decoder) :
    ∃ n, (readIdentifierFinish false last d).1 = .ok (n, last) := by
  rw [readIdentifierFinish]
  cases lookupName d.buf.string d.names with
  | some nm => exact ⟨nm, rfl⟩
  | none => exact ⟨_, rfl⟩

theorem readIdentifierLoop_trailing (w : List Char)
    (hw : ∀ c ∈ w, isIdentifierChar c = true) (isAttr : Bool) (prev : Char)
    (d : Decoder) (fuel : Nat) (hf : w.length < fuel) (t : Char) (rest : List Char)
    (hi : d.input = w ++ t :: rest) :
    (t = '>' → ∃ n, (readIdentifierLoop isAttr fuel prev false d).1 = .ok (n, '>')) ∧
    ((isSpaceRune t = true ∨ (t = '=' ∧ isAttr = true)) →
      isASCIILetter (w.getLastD prev) = false →
      (readIdentifierLoop isAttr fuel prev false d).1
        = .error (.unexpectedChar (w.getLastD prev))) := by
  induction w generalizing prev d fuel with
  | nil =>
    match fuel, hf with
    | f + 1, _ =>
      rw [readIdentifierLoop, Decoder.next_eq d t rest hi]
      constructor
      · intro ht
        subst ht
        have h1 : ¬(('>' : Char) = ':' ∧ false = false) := by
          rintro ⟨hcq, -⟩
          exact absurd hcq (by decide)
        have h2 : isIdentifierChar '>' = false := by decide
        have h3 : ¬(isSpaceRune '>' = true ∨ (('>' : Char) = '=' ∧ isAttr = true)) := by
          rintro (hsp | ⟨he, -⟩)
          · exact absurd hsp (by decide)
          · exact absurd he (by decide)
        simp only [h1, if_false, h2, Bool.false_eq_true, if_false, h3, eq_self_iff_true,
          if_true]
        exact readIdentifierFinish_false_ok '>' _
      · intro ht hletter
        simp only [List.getLastD_nil] at hletter ⊢
        have hcolon : (t = ':') = False := eq_false (by
          intro hcq
          subst hcq
          rcases ht with hsp | ⟨he, -⟩
          · exact absurd hsp (by decide)
          · exact absurd he (by decide))
        have h2 : isIdentifierChar t = false := by
          rcases ht with hsp | ⟨he, -⟩
          · exact isSpace_not_identifier t hsp
          · subst he
            decide
        simp only [hcolon, false_and, if_false, h2, Bool.false_eq_true]
        rw [if_pos ht, if_neg (by simp [hletter])]
  | cons c cs ih =>
    match fuel, hf with
    | f + 1, hf =>
      have hc := hw c (List.mem_cons_self c cs)
      have hw' : ∀ x ∈ cs, isIdentifierChar x = true :=
        fun x hx => hw x (List.mem_cons_of_mem c hx)
      have hf' : cs.length < f := by simpa using Nat.lt_of_succ_lt_succ hf
      have hcolon : (c = ':') = False := eq_false (by
        intro hcq
        subst hcq
        exact absurd hc (by decide))
      rw [readIdentifierLoop, Decoder.next_eq d c (cs ++ t :: rest) (by simpa using hi)]
      simp only [hcolon, false_and, if_false, hc, eq_self_iff_true, if_true,
        List.getLastD_cons]
      exact ih hw' c _ f hf' (by simp)

/-- C10: general part — an identifier made of identifier runes terminated by
'>' always interns and succeeds (no trailing-character check), while the
same runes terminated by whitespace (or '=' when scanning an attribute)
fail with an unexpected-character error on the last accumulated rune if it
is not an ASCII letter (such as '-' or '_'); concrete part — `<foo->` yields
a StartTag named "foo-" while `<foo- >` is an unexpected-character error on
the '-'. -/
theorem c10_trailing_check_terminators :
    (∀ (w : List Char), (∀ c ∈ w, isIdentifierChar c = true) →
      ∀ (isAttr : Bool) (prev : Char) (d : Decoder) (fuel : Nat),
        w.length < fuel → ∀ (t : Char) (rest : List Char), d.input = w ++ t :: rest →
        (t = '>' → ∃ n, (readIdentifierLoop isAttr fuel prev false d).1 = .ok (n, '>')) ∧
        ((isSpaceRune t = true ∨ (t = '=' ∧ isAttr = true)) →
          isASCIILetter (w.getLastD prev) = false →
          (readIdentifierLoop isAttr fuel prev false d).1
            = .error (.unexpectedChar (w.getLastD prev)))) ∧
    (Decoder.Token (NewDecoder false false ['<', 'f', 'o', 'o', '-', '>'])).1
      = .ok (.StartTag (some ⟨"foo-", ""⟩) none) ∧
    (Decoder.Token (NewDecoder false false ['<', 'f', 'o', 'o', '-', ' ', '>'])).1
      = .error (.withPos (.unexpectedChar '-') 1 6) := by
  exact ⟨fun w hw isAttr prev d fuel hf t rest hi =>
           readIdentifierLoop_trailing w hw isAttr prev d fuel hf t rest hi,
         by decide, by decide⟩

/-- C10 witness: the general conjunct applied to the identifier tail
"oo-" (previous rune 'f'): terminated by '>' it succeeds, terminated by a
space it errors on the trailing '-'. -/
theorem c10_trailing_check_terminators_witness :
    (∃ n, (readIdentifierLoop false 5 'f' false
        ({ NewDecoder false false [] with input := ['o', 'o', '-', '>'] })).1
      = .ok (n, '>')) ∧
    (readIdentifierLoop false 5 'f' false
        ({ NewDecoder false false [] with input := ['o', 'o', '-', ' ', '>'] })).1
      = .error (.unexpectedChar '-') := by
  constructor
  · exact (c10_trailing_check_terminators.1 ['o', 'o', '-'] (by decide) false 'f'
      ({ NewDecoder false false [] with input := ['o', 'o', '-', '>'] }) 5 (by decide)
      '>' [] rfl).1 rfl
  · exact ((c10_trailing_check_terminators.1 ['o', 'o', '-'] (by decide) false 'f'
      ({ NewDecoder false false [] with input := ['o', 'o', '-', ' ', '>'] }) 5 (by decide)
      ' ' ['>'] rfl).2 (Or.inl (by decide)) (by decide)).trans (by decide)

/-!
C8.  Name interning.  Preservation infrastructure: every decoder operation
preserves existing interner entries (the only writer, readIdentifierFinish,
stores a spelling only after a failed lookup), and a successful identifier
scan returns exactly the Name stored for its final spelling.
-/

/-- Preservation of interner entries between two interner states. -/
def presN (ns ns' : List (List Char × Name)) : Prop :=
  ∀ w m, lookupName w ns = some m → lookupName w ns' = some m

theorem presN_refl (ns : List (List Char × Name)) : presN ns ns := fun _ _ h => h

theorem presN_trans {a b c : List (List Char × Name)} (h1 : presN a b) (h2 : presN b c) :
    presN a c := fun w m hm => h2 w m (h1 w m hm)

theorem presN_of_eq {a b : List (List Char × Name)} (h : b = a) : presN a b :=
  fun w m hm => by rw [h]; exact hm

/-- Storing a binding for an absent key keeps every present binding. -/
theorem lookupName_cons_pres (w k : List Char) (n : Name) (ns : List (List Char × Name))
    (hk : lookupName k ns = none) (m : Name) (hm : lookupName w ns = some m) :
    lookupName w ((k, n) :: ns) = some m := by
  have hne : ¬(k = w) := by
    intro h
    rw [h, hm] at hk
    cases hk
  simp [lookupName, hne, hm]

theorem Decoder.next_names (d : Decoder) : (d.next).2.names = d.names := by
  rw [Decoder.next]
  cases hi : d.input with
  | nil => rfl
  | cons c rest => split <;> first | rfl | (split <;> rfl)

theorem readIdentifierFinish_presN (fns : Bool) (last : Char) (d : Decoder) :
    presN d.names (readIdentifierFinish fns last d).2.names := by
  rw [readIdentifierFinish]
  cases hl : lookupName d.buf.string d.names with
  | some nm => exact presN_refl _
  | none =>
    dsimp only
    split
    · split
      · exact presN_refl _
      · intro w m hm
        exact lookupName_cons_pres w _ _ _ hl m hm
    · intro w m hm
      exact lookupName_cons_pres w _ _ _ hl m hm

theorem charDataLoop_presN (fuel : Nat) (sp : Bool) (d : Decoder) :
    presN d.names (charDataLoop fuel sp d).2.names := by
  induction fuel generalizing sp d with
  | zero => exact presN_refl _
  | succ f ih =>
    rw [charDataLoop]
    rcases hn : d.next with ⟨ro, d'⟩
    have hnm : d'.names = d.names := by
      have h' := Decoder.next_names d
      rw [hn] at h'
      exact h'
    cases ro with
    | none =>
      dsimp only
      exact presN_of_eq hnm
    | some r =>
      dsimp only
      repeat' split
      all_goals first
        | exact presN_trans (presN_of_eq (by simp [hnm])) (ih _ _)
        | exact presN_trans (presN_of_eq (by simp [hnm])) (ih _)
        | exact presN_of_eq (by simp [hnm])

theorem readStringLoop_presN (quote : Char) (fuel : Nat) (d : Decoder) :
    presN d.names (readStringLoop quote fuel d).2.names := by
  induction fuel generalizing d with
  | zero => exact presN_refl _
  | succ f ih =>
    rw [readStringLoop]
    rcases hn : d.next with ⟨ro, d'⟩
    have hnm : d'.names = d.names := by
      have h' := Decoder.next_names d
      rw [hn] at h'
      exact h'
    cases ro with
    | none =>
      dsimp only
      exact presN_of_eq hnm
    | some r =>
      dsimp only
      repeat' split
      all_goals first
        | exact presN_trans (presN_of_eq (by simp [hnm])) (ih _ _)
        | exact presN_trans (presN_of_eq (by simp [hnm])) (ih _)
        | exact presN_of_eq (by simp [hnm])

theorem consumeLoop_presN (match_ : Char → Bool) (read : Bool) (fuel : Nat) (d : Decoder) :
    presN d.names (consumeLoop match_ read fuel d).2.names := by
  induction fuel generalizing d with
  | zero => exact presN_refl _
  | succ f ih =>
    rw [consumeLoop]
    rcases hn : d.next with ⟨ro, d'⟩
    have hnm : d'.names = d.names := by
      have h' := Decoder.next_names d
      rw [hn] at h'
      exact h'
    cases ro with
    | none =>
      dsimp only
      exact presN_of_eq hnm
    | some r =>
      dsimp only
      repeat' split
      all_goals first
        | exact presN_trans (presN_of_eq (by simp [hnm])) (ih _ _)
        | exact presN_trans (presN_of_eq (by simp [hnm])) (ih _)
        | exact presN_of_eq (by simp [hnm])

theorem consumeSpace_presN (d : Decoder) : presN d.names (d.consumeSpace).2.names :=
  consumeLoop_presN _ _ _ d

theorem commentLoop_presN (fuel count : Nat) (d : Decoder) :
    presN d.names (commentLoop fuel count d).2.names := by
  induction fuel generalizing count d with
  | zero => exact presN_refl _
  | succ f ih =>
    rw [commentLoop]
    rcases hn : d.next with ⟨ro, d'⟩
    have hnm : d'.names = d.names := by
      have h' := Decoder.next_names d
      rw [hn] at h'
      exact h'
    cases ro with
    | none =>
      dsimp only
      exact presN_of_eq hnm
    | some r =>
      dsimp only
      repeat' split
      all_goals first
        | exact presN_trans (presN_of_eq (by simp [hnm])) (ih _ _)
        | exact presN_trans (presN_of_eq (by simp [hnm])) (ih _)
        | exact presN_of_eq (by simp [hnm])

theorem procInstLoop_presN (fuel : Nat) (qm : Bool) (d : Decoder) :
    presN d.names (procInstLoop fuel qm d).2.names := by
  induction fuel generalizing qm d with
  | zero => exact presN_refl _
  | succ f ih =>
    rw [procInstLoop]
    rcases hn : d.next with ⟨ro, d'⟩
    have hnm : d'.names = d.names := by
      have h' := Decoder.next_names d
      rw [hn] at h'
      exact h'
    cases ro with
    | none =>
      dsimp only
      exact presN_of_eq hnm
    | some r =>
      dsimp only
      repeat' split
      all_goals first
        | exact presN_trans (presN_of_eq (by simp [hnm])) (ih _ _)
        | exact presN_trans (presN_of_eq (by simp [hnm])) (ih _)
        | exact presN_of_eq (by simp [hnm])

/-- Chain preservation through a call whose result has been destructured by
a match equation. -/
theorem presN_chain {a : List (List Char × Name)} {st : Decoder} {α : Type}
    (X : α × Decoder) (res : α) (d2 : Decoder)
    (hst : presN a st.names) (hX : presN st.names X.2.names) (heq : X = (res, d2)) :
    presN a d2.names := by
  rw [heq] at hX
  exact presN_trans hst hX

theorem directiveBrackets_presN (fuel : Nat) (r : Char) (d : Decoder) :
    presN d.names (directiveBrackets fuel r d).2.names := by
  induction fuel generalizing r d with
  | zero => exact presN_refl _
  | succ f ih =>
    rw [directiveBrackets]
    split
    · dsimp only
      split
      · next e d2 heq =>
        exact presN_chain _ _ _ (presN_of_eq (by split <;> rfl))
          (consumeLoop_presN _ _ _ _) heq
      · next r2 d2 heq =>
        exact presN_trans
          (presN_chain _ _ _ (presN_of_eq (by split <;> rfl))
            (consumeLoop_presN _ _ _ _) heq)
          (ih _ _)
    · exact presN_refl _

theorem directiveLoop_presN (fuel : Nat) (d : Decoder) :
    presN d.names (directiveLoop fuel d).2.names := by
  induction fuel generalizing d with
  | zero => exact presN_refl _
  | succ f ih =>
    rw [directiveLoop]
    rcases hn : d.next with ⟨ro, d'⟩
    have hnm : d'.names = d.names := by
      have h' := Decoder.next_names d
      rw [hn] at h'
      exact h'
    cases ro with
    | none =>
      dsimp only
      exact presN_of_eq hnm
    | some r =>
      dsimp only
      split
      · next e d2 heq =>
        exact presN_chain _ _ _ (presN_of_eq hnm) (directiveBrackets_presN _ _ _) heq
      · next r2 d2 heq =>
        have hb : presN d.names d2.names :=
          presN_chain _ _ _ (presN_of_eq hnm) (directiveBrackets_presN _ _ _) heq
        split
        · split
          · exact presN_trans hb (presN_of_eq (by simp))
          · exact hb
        · exact presN_trans (presN_trans hb (presN_of_eq (by split <;> rfl))) (ih _)

theorem readIdentifierLoop_presN (isAttr : Bool) (fuel : Nat) (prev : Char)
    (fns : Bool) (d : Decoder) :
    presN d.names (readIdentifierLoop isAttr fuel prev fns d).2.names := by
  induction fuel generalizing prev fns d with
  | zero => exact presN_refl _
  | succ f ih =>
    rw [readIdentifierLoop]
    rcases hn : d.next with ⟨ro, d'⟩
    have hnm : d'.names = d.names := by
      have h' := Decoder.next_names d
      rw [hn] at h'
      exact h'
    cases ro with
    | none =>
      dsimp only
      exact presN_of_eq hnm
    | some r =>
      dsimp only
      repeat' split
      all_goals first
        | exact presN_trans (presN_of_eq (by simp [hnm])) (ih _ _ _)
        | exact presN_trans (presN_of_eq (by simp [hnm])) (readIdentifierFinish_presN _ _ _)
        | exact presN_of_eq (by simp [hnm])

theorem readIdentifier_presN (d : Decoder) (isAttr : Bool) :
    presN d.names (d.readIdentifier isAttr).2.names :=
  readIdentifierLoop_presN _ _ _ _ d

theorem charData_presN (d : Decoder) (start : Char) :
    presN d.names (d.charData start).2.names := by
  rw [Decoder.charData]
  exact presN_trans (presN_of_eq (by simp)) (charDataLoop_presN _ _ _)

theorem comment_presN (d : Decoder) : presN d.names (d.comment).2.names :=
  commentLoop_presN _ _ d

theorem procInst_presN (d : Decoder) : presN d.names (d.procInst).2.names :=
  procInstLoop_presN _ _ d

theorem directive_presN (d : Decoder) (last : Char) :
    presN d.names (d.directive last).2.names := by
  rw [Decoder.directive]
  split
  · split
    · exact presN_of_eq (by simp)
    · exact presN_refl _
  · exact presN_trans (presN_of_eq (by split <;> rfl)) (directiveLoop_presN _ _)

theorem closeTag_presN (d : Decoder) : presN d.names (d.closeTag).2.names := by
  rw [Decoder.closeTag]
  split
  · next e d1 heq =>
    exact presN_chain _ _ _ (presN_refl _) (consumeSpace_presN d) heq
  · next last d1 heq =>
    have h1 : presN d.names d1.names :=
      presN_chain _ _ _ (presN_refl _) (consumeSpace_presN d) heq
    split
    · dsimp only
      split
      · next e d2 heq2 =>
        exact presN_chain _ _ _ (presN_trans h1 (presN_of_eq (by simp)))
          (readIdentifier_presN _ _) heq2
      · next nm last2 d2 heq2 =>
        have h2 : presN d.names d2.names :=
          presN_chain _ _ _ (presN_trans h1 (presN_of_eq (by simp)))
            (readIdentifier_presN _ _) heq2
        split
        · next e d3 heq3 =>
          exact presN_chain _ _ _ h2
            (by split
                · exact consumeSpace_presN _
                · exact presN_refl _) heq3
        · next last3 d3 heq3 =>
          have h3 : presN d.names d3.names :=
            presN_chain _ _ _ h2
              (by split
                  · exact consumeSpace_presN _
                  · exact presN_refl _) heq3
          split
          · exact presN_trans h3 (presN_of_eq (by simp))
          · exact h3
    · exact h1

/-- Preservation through the self-close step of the start-tag loop. -/
theorem selfCloseStep_presN (dA : Decoder) (l0 : Char) :
    presN dA.names
      ((if l0 = '/' then
          match ({ dA with selfClosingTag := dA.startTagName } : Decoder).next with
          | (none, dC) => ((.error DecErr.wrappedEOF : Except DecErr Char), dC)
          | (some l1, dC) =>
            if l1 = '>' then (.ok '>', dC) else (.error (.unexpectedChar l1), dC)
        else (.ok l0, dA)).2.names) := by
  split
  · rcases hnB : ({ dA with selfClosingTag := dA.startTagName } : Decoder).next with ⟨ro, dC⟩
    have hC : dC.names = dA.names := by
      have h' := Decoder.next_names ({ dA with selfClosingTag := dA.startTagName } : Decoder)
      rw [hnB] at h'
      simpa using h'
    cases ro with
    | none =>
      dsimp only
      exact presN_of_eq hC
    | some l1 =>
      dsimp only
      split <;> exact presN_of_eq hC
  · exact presN_refl _

theorem startTagLoop_presN (fuel : Nat) (d : Decoder) :
    presN d.names (startTagLoop fuel d).2.names := by
  induction fuel generalizing d with
  | zero => exact presN_refl _
  | succ f ih =>
    rw [startTagLoop]
    split
    · next e dA heq =>
      exact presN_chain _ _ _ (presN_refl _) (consumeSpace_presN d) heq
    · next l0 dA heq =>
      have hA : presN d.names dA.names :=
        presN_chain _ _ _ (presN_refl _) (consumeSpace_presN d) heq
      dsimp only
      split
      · next e dD heq2 =>
        exact presN_chain _ _ _ hA (selfCloseStep_presN dA l0) heq2
      · next last dD heq2 =>
        have hD : presN d.names dD.names :=
          presN_chain _ _ _ hA (selfCloseStep_presN dA l0) heq2
        split
        · exact presN_trans hD (presN_of_eq (by simp))
        · split
          · split
            · next e dF heq3 =>
              exact presN_chain _ _ _ (presN_trans hD (presN_of_eq (by simp)))
                (readIdentifier_presN _ _) heq3
            · next name l2 dF heq3 =>
              have hF : presN d.names dF.names :=
                presN_chain _ _ _ (presN_trans hD (presN_of_eq (by simp)))
                  (readIdentifier_presN _ _) heq3
              split
              · next e dG heq4 =>
                exact presN_chain _ _ _ hF
                  (by split
                      · exact consumeSpace_presN _
                      · exact presN_refl _) heq4
              · next l3 dG heq4 =>
                have hG : presN d.names dG.names :=
                  presN_chain _ _ _ hF
                    (by split
                        · exact consumeSpace_presN _
                        · exact presN_refl _) heq4
                split
                · split
                  · exact presN_trans hG (presN_of_eq (by simp))
                  · split
                    · split
                      · next e dI heq5 =>
                        exact presN_chain _ _ _
                          (presN_trans hG (presN_of_eq (by simp)))
                          (consumeSpace_presN _) heq5
                      · next q dI heq5 =>
                        have hI : presN d.names dI.names :=
                          presN_chain _ _ _
                            (presN_trans hG (presN_of_eq (by simp)))
                            (consumeSpace_presN _) heq5
                        split
                        · split
                          · next e dK heq6 =>
                            exact presN_chain _ _ _
                              (presN_trans hI (presN_of_eq (by simp)))
                              (readStringLoop_presN _ _ _) heq6
                          · next v dK heq6 =>
                            have hK : presN d.names dK.names :=
                              presN_chain _ _ _
                                (presN_trans hI (presN_of_eq (by simp)))
                                (readStringLoop_presN _ _ _) heq6
                            exact presN_trans
                              (presN_trans hK (presN_of_eq (by simp))) (ih _)
                        · exact hI
                    · exact presN_trans (presN_trans hG (presN_of_eq (by simp))) (ih _)
                · exact hG
          · exact hD

theorem startTag_presN (d : Decoder) : presN d.names (d.startTag).2.names := by
  rw [Decoder.startTag]
  split
  · next e d1 heq =>
    exact presN_chain _ _ _ (presN_refl _) (readIdentifier_presN _ _) heq
  · next nm last d1 heq =>
    have h1 : presN d.names d1.names :=
      presN_chain _ _ _ (presN_refl _) (readIdentifier_presN _ _) heq
    dsimp only
    split
    · exact presN_trans h1 (presN_of_eq (by simp))
    · exact presN_trans (presN_trans h1 (presN_of_eq (by simp))) (startTagLoop_presN _ _)

theorem angleStart_presN (d : Decoder) : presN d.names (d.angleStart).2.names := by
  rw [Decoder.angleStart]
  rcases hn : d.next with ⟨ro, d'⟩
  have hnm : d'.names = d.names := by
    have h' := Decoder.next_names d
    rw [hn] at h'
    exact h'
  cases ro with
  | none =>
    dsimp only
    exact presN_of_eq hnm
  | some r =>
    dsimp only
    split
    · exact presN_trans (presN_of_eq (by simp [hnm])) (startTag_presN _)
    · split
      · exact presN_trans (presN_of_eq hnm) (closeTag_presN _)
      · split
        · rcases hn2 : ({ d' with buf := d'.buf.reset } : Decoder).next with ⟨ro2, e⟩
          have hnm2 : e.names = d'.names := by
            have h' := Decoder.next_names ({ d' with buf := d'.buf.reset } : Decoder)
            rw [hn2] at h'
            simpa using h'
          cases ro2 with
          | none =>
            dsimp only
            exact presN_of_eq (by rw [hnm2, hnm])
          | some r2 =>
            dsimp only
            split
            · rcases hn3 : e.next with ⟨ro3, e2⟩
              have hnm3 : e2.names = e.names := by
                have h' := Decoder.next_names e
                rw [hn3] at h'
                exact h'
              cases ro3 with
              | none =>
                dsimp only
                exact presN_of_eq (by rw [hnm3, hnm2, hnm])
              | some r3 =>
                dsimp only
                split
                · exact presN_trans (presN_of_eq (by rw [hnm3, hnm2, hnm])) (comment_presN _)
                · exact presN_of_eq (by rw [hnm3, hnm2, hnm])
            · exact presN_trans (presN_of_eq (by rw [hnm2, hnm])) (directive_presN _ _)
        · split
          · exact presN_trans (presN_of_eq hnm) (procInst_presN _)
          · exact presN_of_eq hnm

theorem token_presN (d : Decoder) : presN d.names (Decoder.token d).2.names := by
  rw [Decoder.token]
  split
  · exact presN_trans (presN_of_eq (by simp)) (angleStart_presN _)
  · split
    · exact presN_of_eq (by simp)
    · rcases hn : d.next with ⟨ro, d'⟩
      have hnm : d'.names = d.names := by
        have h' := Decoder.next_names d
        rw [hn] at h'
        exact h'
      cases ro with
      | none =>
        dsimp only
        exact presN_of_eq hnm
      | some r =>
        dsimp only
        split
        · exact presN_trans (presN_of_eq hnm) (angleStart_presN _)
        · split
          · exact presN_of_eq hnm
          · exact presN_trans (presN_of_eq hnm) (charData_presN _ _)

/-- A successful intern step returns exactly the Name stored for the final
spelling (the buffer contents at return): a hit returns the stored entry
unchanged, a miss returns the Name it has just stored. -/
theorem readIdentifierFinish_lookup (fns : Bool) (last : Char) (d : Decoder)
    (n : Name) (l : Char) (d' : Decoder)
    (h : readIdentifierFinish fns last d = (.ok (n, l), d')) :
    lookupName d'.buf.string d'.names = some n := by
  rw [readIdentifierFinish] at h
  cases hl : lookupName d.buf.string d.names with
  | some nm =>
    rw [hl] at h
    dsimp only at h
    cases h
    exact hl
  | none =>
    rw [hl] at h
    dsimp only at h
    split at h
    · split at h
      · cases h
      · cases h
        simp [lookupName]
    · cases h
      simp [lookupName]

/-- A successful identifier scan returns the Name that the resulting
interner stores for the scanned spelling. -/
theorem readIdentifierLoop_lookup (isAttr : Bool) (fuel : Nat) (prev : Char) (fns : Bool)
    (d : Decoder) (n : Name) (l : Char) (d' : Decoder)
    (h : readIdentifierLoop isAttr fuel prev fns d = (.ok (n, l), d')) :
    lookupName d'.buf.string d'.names = some n := by
  induction fuel generalizing prev fns d with
  | zero =>
    rw [readIdentifierLoop] at h
    injection h with h1 h2
    cases h1
  | succ f ih =>
    rw [readIdentifierLoop] at h
    rcases hn : d.next with ⟨ro, d0⟩
    rw [hn] at h
    cases ro with
    | none =>
      dsimp only at h
      injection h with h1 h2
      cases h1
    | some r =>
      dsimp only at h
      split at h
      · exact ih _ _ _ h
      · split at h
        · exact ih _ _ _ h
        · split at h
          · split at h
            · exact readIdentifierFinish_lookup _ _ _ _ _ _ h
            · injection h with h1 h2
              cases h1
          · split at h
            · exact readIdentifierFinish_lookup _ _ _ _ _ _ h
            · injection h with h1 h2
              cases h1

/-- C8: (i) every successful readIdentifier call returns exactly the Name
the resulting interner stores for the scanned spelling (the buffer contents
at return) — on a first occurrence the freshly stored Name, on a repeat the
previously stored one; (ii) readIdentifier preserves every existing
interner entry (it stores a spelling only after lookup failed); (iii) the
whole Token() step preserves every existing interner entry.  Together these
give the claim: the first scan of a spelling w stores its Name n (i);
arbitrarily many further Token() calls keep (w, n) intact (iii) and so does
the prefix of the second scan (ii); the second scan of w then returns some
n' with lookup w = some n' (i) while the preserved entry forces
lookup w = some n, hence n' = n — the same shared instance, and Names are
never mutated, so value equality also holds. -/
theorem c8_name_interning :
    (∀ (isAttr : Bool) (d : Decoder) (n : Name) (l : Char) (d' : Decoder),
       d.readIdentifier isAttr = (.ok (n, l), d') →
       lookupName d'.buf.string d'.names = some n) ∧
    (∀ (isAttr : Bool) (d : Decoder) (w : List Char) (m : Name),
       lookupName w d.names = some m →
       lookupName w (d.readIdentifier isAttr).2.names = some m) ∧
    (∀ (d : Decoder) (w : List Char) (m : Name),
       lookupName w d.names = some m →
       lookupName w (Decoder.token d).2.names = some m) := by
  refine ⟨?_, ?_, ?_⟩
  · intro isAttr d n l d' h
    exact readIdentifierLoop_lookup _ _ _ _ _ _ _ _ h
  · intro isAttr d w m hm
    exact readIdentifier_presN d isAttr w m hm
  · intro d w m hm
    exact token_presN d w m hm

/-- C8 witness: scanning "ab" (initial letter 'a' already buffered) from a
fresh interner stores and returns Name{local:"ab"}, and the stored entry is
what the final interner yields for the spelling; a Token() call on
unrelated input preserves a present entry. -/
theorem c8_name_interning_witness :
    lookupName
        ((({ NewDecoder false false [] with
            input := ['b', '>'],
            buf := { store := ['a'], len := 1 } } : Decoder).readIdentifier false).2.buf.string)
        ((({ NewDecoder false false [] with
            input := ['b', '>'],
            buf := { store := ['a'], len := 1 } } : Decoder).readIdentifier false).2.names)
      = some ⟨"ab", ""⟩ ∧
    lookupName ['a', 'b']
        ((Decoder.token ({ NewDecoder false false ['z'] with
            names := [(['a', 'b'], ⟨"ab", ""⟩)] })).2.names)
      = some ⟨"ab", ""⟩ := by
  constructor
  · exact c8_name_interning.1 false
      ({ NewDecoder false false [] with
         input := ['b', '>'], buf := { store := ['a'], len := 1 } })
      ⟨"ab", ""⟩ '>'
      (((({ NewDecoder false false [] with
          input := ['b', '>'], buf := { store := ['a'], len := 1 } } : Decoder)).readIdentifier
          false).2) rfl
  · exact c8_name_interning.2.2
      ({ NewDecoder false false ['z'] with names := [(['a', 'b'], ⟨"ab", ""⟩)] })
      ['a', 'b'] ⟨"ab", ""⟩ rfl

end GoXml
